import Mathlib

/-
Verification development for the retext core (src/index.js):
the CST-to-TextOM tree builder `fromCST`, the plugin attachment method
`use`, the facade methods `parse` and `run`, and the pipeline runner
contract of the middleware the facade delegates to.
-/

set_option autoImplicit false

namespace Retext2Proof

/-- The optional `value` field of a CST node: a leaf's literal string, or absent. -/
inductive CVal : Type where
  | absent : CVal
  | str : String → CVal
deriving DecidableEq

/-- An entry of a CST node's `data` mapping, as enumerated by a JS
for-in loop: a key, a value, and whether the property is an own
property (the source guards each copy with `has.call(data, attribute)`). -/
structure DEntry : Type where
  key : String
  val : String
  own : Bool
deriving DecidableEq

/-- The optional `data` field of a CST node: absent, or a mapping given by
its for-in enumeration order. -/
inductive CData : Type where
  | absent : CData
  | table : List DEntry → CData
deriving DecidableEq

mutual
/-- A concrete syntax tree node: a `type` tag, an optional `children`
sequence, an optional `value` string, and an optional `data` mapping.
Presence of a JS key is modelled by the `absent` constructors. -/
inductive CST : Type where
  | mk : String → CKids → CVal → CData → CST

/-- The optional `children` field of a CST node. -/
inductive CKids : Type where
  | absent : CKids
  | present : CList → CKids

/-- A JS array of CST children; an element may be a node or a falsy
entry such as `null` (the builder's loop tests each element for truthiness). -/
inductive CList : Type where
  | nil : CList
  | cons : CEntry → CList → CList

/-- One element of a CST `children` array: `null` (falsy) or a node. -/
inductive CEntry : Type where
  | null : CEntry
  | node : CST → CEntry
end

/-- The `type` tag of a CST node. -/
def CST.type : CST → String
  | .mk t _ _ _ => t

/-- A tree node of the object model, as observable through the capabilities
the builder exercises: its variant tag, its appended children in order, the
string passed to `fromString` (if any), and its `data` namespace. -/
inductive TreeNode : Type where
  | mk : String → List TreeNode → Option String → List (String × String) → TreeNode

/-- The variant tag of a tree node. -/
def TreeNode.type : TreeNode → String
  | .mk t _ _ _ => t

/-- The children of a tree node, in append order. -/
def TreeNode.children : TreeNode → List TreeNode
  | .mk _ c _ _ => c

/-- The textual content a leaf node received via `fromString`, if any. -/
def TreeNode.value : TreeNode → Option String
  | .mk _ _ v _ => v

/-- The `data` namespace of a tree node. -/
def TreeNode.data : TreeNode → List (String × String)
  | .mk _ _ _ d => d

/-- Errors that escape the core synchronously, as JS exceptions do. -/
inductive JSErr : Type where
  | invalidPlugin : JSErr
  | invalidCallback : JSErr
  | unknownNodeType : String → JSErr
  | parserThrew : Nat → JSErr
deriving DecidableEq

/-- Assignment `m[k] = v` on a string-keyed mapping kept in insertion
order: overwrite the existing entry for `k` in place, else append. -/
def setKey : List (String × String) → String → String → List (String × String)
  | [], k, v => [(k, v)]
  | (k', v') :: tl, k, v =>
    if k' = k then (k, v) :: tl else (k', v') :: setKey tl k v

/-- The data-copying loop of `fromCST` (src/index.js lines 66 to 74): for each
enumerated attribute of `cst.data` that is an own property, assign it into the
new node's `data` namespace, starting from the fresh node's empty namespace. -/
def copyData : CData → List (String × String)
  | .absent => []
  | .table es => es.foldl (fun m e => if e.own then setKey m e.key e.val else m) []

/-- The string handed to `fromString`, when the `value` field is present. -/
def valOf : CVal → Option String
  | .absent => none
  | .str s => some s

mutual
/-- The tree builder `fromCST` (src/index.js lines 33 to 77). The object
model `TextOM` is the list of registered constructor names; instantiating
`new TextOM[cst.type]()` for an unregistered type throws, modelled as the
`unknownNodeType` error. With `children` present the builder appends the
recursively built children; otherwise it calls `fromString(cst.value)`;
finally own keys of `cst.data` are copied into the node's data namespace. -/
def fromCST (TextOM : List String) : CST → Except JSErr TreeNode
  | .mk ty kids v dt =>
    if ty ∈ TextOM then
      match kids with
      | .present l =>
        match buildList TextOM l with
        | .error e => .error e
        | .ok ns => .ok (.mk ty ns none (copyData dt))
      | .absent => .ok (.mk ty [] (valOf v) (copyData dt))
    else
      .error (.unknownNodeType ty)

/-- The child loop of `fromCST`: `while (children[++index])` builds and
appends children while the element at the index is truthy, so a `null`
entry, like the end of the array, stops the loop. -/
def buildList (TextOM : List String) : CList → Except JSErr (List TreeNode)
  | .nil => .ok []
  | .cons .null _ => .ok []
  | .cons (.node c) tl =>
    match fromCST TextOM c with
    | .error e => .error e
    | .ok n =>
      match buildList TextOM tl with
      | .error e => .error e
      | .ok ns => .ok (n :: ns)
end

/-- Modelled from the spec: the observable behavior of one plugin during a
run, as classified by section 4.3 of the pipeline contract (the middleware
package `ware` that `Retext.prototype.run` delegates to is an external
dependency, not part of this repository's source). A plugin either returns
synchronously, throws synchronously, invokes its continuation (with an
error, or successfully with an optional replacement node), never invokes
its continuation, or misbehaves by throwing during its turn and also
invoking its continuation later. Plugin errors are numbered. -/
inductive PluginBehavior : Type where
  | syncOk : PluginBehavior
  | syncThrow : Nat → PluginBehavior
  | asyncNext : Option Nat → Option TreeNode → PluginBehavior
  | asyncNever : PluginBehavior
  | throwAndNext : Nat → Option Nat → PluginBehavior

/-- Observable events of a run: a plugin beginning execution (by position in
the registry), a plugin's continuation being honoured, a plugin's `attach`
hook being invoked (by plugin identity), and the terminal callback firing
with an error or a node. -/
inductive Event : Type where
  | invoke : Nat → Event
  | nextCall : Nat → Event
  | attachCall : Nat → Event
  | callback : Option Nat → Option TreeNode → Event

/-- Modelled from the spec: the pipeline runner contract of the external
middleware (sections 4.3 and 5): plugins run strictly sequentially in
registry order, the runner waits for an asynchronous continuation before
advancing, an error short-circuits to a single callback with that error and
no node, a successful continuation may supply a replacement node threaded to
later plugins, exhausting the registry fires the callback once with the
current node, a plugin that never continues stalls the pipeline, and a
plugin that both throws and continues cannot fire the callback twice (the
first signal wins). `i` is the registry position of the next plugin. -/
def runWare : List PluginBehavior → TreeNode → Nat → List Event
  | [], node, _ => [.callback none (some node)]
  | p :: rest, node, i =>
    Event.invoke i ::
      match p with
      | .syncOk => runWare rest node (i + 1)
      | .syncThrow e => [.callback (some e) none]
      | .asyncNext none r => .nextCall i :: runWare rest (r.getD node) (i + 1)
      | .asyncNext (some e) _ => [.nextCall i, .callback (some e) none]
      | .asyncNever => []
      | .throwAndNext e _ => [.callback (some e) none]

/-- A plugin attached to a processing instance: its function identity (JS
reference equality, used by the `indexOf` dedup test), whether it exposes a
truthy `attach` property, and its run-time behavior. -/
structure Plugin : Type where
  id : Nat
  hasAttach : Bool
  behavior : PluginBehavior

/-- A processing instance: the ordered plugin registry (`self.ware.fns`) and
the object model binding (`self.TextOM`), kept as its registered type names.
The parser reference is passed explicitly to `parse`. -/
structure Retext : Type where
  fns : List Plugin
  textom : List String

/-- The interesting path of `Retext.prototype.use` (src/index.js lines 149
to 155): if the plugin's identity is not in the registry, append it (via
`ware.use`, which the spec describes as appending to the ordered registry)
and, if it has a truthy `attach`, invoke `plugin.attach(self)` synchronously.
Returns the updated instance and the attach events fired. -/
def usePlugin (self : Retext) (p : Plugin) : Retext × List Event :=
  if self.fns.any (fun q => q.id = p.id) then (self, [])
  else ({ self with fns := self.fns ++ [p] },
        if p.hasAttach then [.attachCall p.id] else [])

/-- An argument passed where a plugin function is expected: callable or not. -/
inductive JSArg : Type where
  | fn : Plugin → JSArg
  | nonFn : JSArg

/-- A `done` argument passed where a callback function is expected. -/
inductive JSCallback : Type where
  | valid : JSCallback
  | notFn : JSCallback

/-- `Retext.prototype.use` (src/index.js lines 137 to 158): a non-function
argument throws a TypeError synchronously, leaving the instance untouched;
otherwise the plugin is attached as in `usePlugin`. -/
def Retext.use (self : Retext) (a : JSArg) : Retext × Except JSErr (List Event) :=
  match a with
  | .nonFn => (self, .error .invalidPlugin)
  | .fn p => ((usePlugin self p).1, .ok (usePlugin self p).2)

/-- `Retext.prototype.run` (src/index.js lines 206 to 224): a non-function
`done` throws a TypeError synchronously before any plugin executes;
otherwise the middleware runs the registry against the node. -/
def Retext.run (self : Retext) (node : TreeNode) (cb : JSCallback) : Except JSErr (List Event) :=
  match cb with
  | .notFn => .error .invalidCallback
  | .valid => .ok (runWare (self.fns.map (fun p => p.behavior)) node 0)

/-- `Retext.prototype.parse` (src/index.js lines 172 to 192): a non-function
`done` throws synchronously before the parser is invoked; then
`self.parser.parse(value)` runs synchronously, any exception propagating to
the caller (modelled by the parser returning an error code); then the CST is
built with `fromCST` (whose exception likewise propagates); then `run`
applies the plugins to the built node. -/
def Retext.parse (self : Retext) (parser : String → Except Nat CST)
    (value : String) (cb : JSCallback) : Except JSErr (List Event) :=
  match cb with
  | .notFn => .error .invalidCallback
  | .valid =>
    match parser value with
    | .error e => .error (.parserThrew e)
    | .ok cst =>
      match fromCST self.textom cst with
      | .error e => .error e
      | .ok node => .ok (runWare (self.fns.map (fun p => p.behavior)) node 0)

/-- The callback firings in a trace, with their arguments. -/
def callbackEvents (tr : List Event) : List (Option Nat × Option TreeNode) :=
  tr.filterMap fun ev =>
    match ev with
    | .callback e n => some (e, n)
    | _ => none

/-- The registry positions of the plugins that began execution, in order. -/
def invokeIdxs (tr : List Event) : List Nat :=
  tr.filterMap fun ev =>
    match ev with
    | .invoke i => some i
    | _ => none

/-- Whether an event is an `attach` hook invocation. -/
def Event.isAttach : Event → Bool
  | .attachCall _ => true
  | _ => false

/-- A plugin behavior that completes its turn successfully: a synchronous
return, or a continuation invoked without an error. -/
def completesOk : PluginBehavior → Bool
  | .syncOk => true
  | .asyncNext none _ => true
  | _ => false

/-- The error a plugin signals, when it signals one: a synchronous throw, a
continuation invoked with an error, or a misbehaving throw. -/
def signalsError : PluginBehavior → Option Nat
  | .syncThrow e => some e
  | .asyncNext (some e) _ => some e
  | .throwAndNext e _ => some e
  | _ => none

mutual
/-- A well-formed CST node per the data-model invariant: `children` XOR
`value`, and every child is itself a well-formed node (not a falsy entry). -/
def wf : CST → Bool
  | .mk _ kids v _ =>
    match kids, v with
    | .present l, .absent => wfList l
    | .absent, .str _ => true
    | _, _ => false

/-- A well-formed children array: every entry a well-formed node. -/
def wfList : CList → Bool
  | .nil => true
  | .cons .null _ => false
  | .cons (.node c) tl => wf c && wfList tl
end

/-- The CST nodes among the entries of a children array, in order. -/
def entries : CList → List CST
  | .nil => []
  | .cons .null tl => entries tl
  | .cons (.node c) tl => c :: entries tl

/-- A children array built from a list of entries. -/
def clist : List CEntry → CList
  | [] => .nil
  | e :: tl => .cons e (clist tl)

/-- The claim-side recursive builder over a plain list of CST children:
build each child in order, propagating the first failure. Used to state
that the children of a built node are exactly the recursively built CST
children in the original order. -/
def buildAll (TextOM : List String) : List CST → Except JSErr (List TreeNode)
  | [] => .ok []
  | c :: cs =>
    match fromCST TextOM c with
    | .error e => .error e
    | .ok n =>
      match buildAll TextOM cs with
      | .error e => .error e
      | .ok ns => .ok (n :: ns)

/-- Lookup in a string-keyed mapping kept in insertion order. -/
def dlookup : List (String × String) → String → Option String
  | [], _ => none
  | (k', v') :: tl, k => if k' = k then some v' else dlookup tl k

/-- The claim-side value of a data key after a shallow, last-write-wins copy
of the own entries of a CST data mapping: the value of the last own entry
carrying that key, if any. -/
def lastOwnVal (es : List DEntry) (k : String) : Option String :=
  match es.reverse.find? (fun e => e.own && decide (e.key = k)) with
  | some e => some e.val
  | none => none

/-- The node the callback receives when every plugin completes successfully:
the original node unless some continuation supplied a replacement, in which
case the last replacement. -/
def finalNode : List PluginBehavior → TreeNode → TreeNode
  | [], n => n
  | .asyncNext none (some r) :: tl, _ => finalNode tl r
  | _ :: tl, n => finalNode tl n

/-- The claim-side sequential trace of a clean run, encoding the temporal
contract directly: plugin `i` begins, the runner waits for its continuation
if it is asynchronous, only then does plugin `i + 1` begin, and after the
last plugin the callback fires once with no error and the threaded node. -/
def seqTrace : List PluginBehavior → TreeNode → Nat → List Event
  | [], node, _ => [.callback none (some node)]
  | .asyncNext none r :: tl, node, i =>
    .invoke i :: .nextCall i :: seqTrace tl (r.getD node) (i + 1)
  | _ :: tl, node, i => .invoke i :: seqTrace tl node (i + 1)

/-- On a well-formed children array the builder's truthiness loop visits
every entry, so it agrees with the plain recursive builder over the entry
list. -/
theorem buildList_eq_buildAll (TextOM : List String) :
    ∀ l : CList, wfList l = true → buildList TextOM l = buildAll TextOM (entries l)
  | .nil, _ => rfl
  | .cons .null _, h => by simp [wfList] at h
  | .cons (.node c) tl, h => by
    have htl : wfList tl = true := by
      simp [wfList, Bool.and_eq_true] at h
      exact h.2
    have ih := buildList_eq_buildAll TextOM tl htl
    cases hfc : fromCST TextOM c with
    | error e => simp [buildList, buildAll, entries, hfc]
    | ok n => simp [buildList, buildAll, entries, hfc, ih]

/-- The builder's loop over a children array that starts with buildable
nodes and then reaches a stopping point (a falsy entry or the end) returns
exactly the nodes built from the leading segment. -/
theorem buildList_clist_split (TextOM : List String) :
    ∀ (pre : List CST) (rest : List CEntry) (ns : List TreeNode),
      buildAll TextOM pre = .ok ns → buildList TextOM (clist rest) = .ok [] →
      buildList TextOM (clist (pre.map CEntry.node ++ rest)) = .ok ns
  | [], rest, ns, h, hrest => by
    simp [buildAll] at h
    subst h
    simpa using hrest
  | c :: cs, rest, ns, h, hrest => by
    cases hfc : fromCST TextOM c with
    | error e => simp [buildAll, hfc] at h
    | ok n =>
      cases hcs : buildAll TextOM cs with
      | error e => simp [buildAll, hfc, hcs] at h
      | ok ms =>
        have hns : ns = n :: ms := by
          simp [buildAll, hfc, hcs] at h
          exact h.symm
        have ih := buildList_clist_split TextOM cs rest ms hcs hrest
        subst hns
        simp [clist, buildList, hfc, ih]

/-- Reading back a key after a single assignment. -/
theorem dlookup_setKey :
    ∀ (m : List (String × String)) (k v k' : String),
      dlookup (setKey m k v) k' = if k = k' then some v else dlookup m k'
  | [], k, v, k' => by simp [setKey, dlookup]
  | (a, b) :: tl, k, v, k' => by
    by_cases hak : a = k
    · subst hak
      by_cases hk' : a = k' <;> simp [setKey, dlookup, hk']
    · have ih := dlookup_setKey tl k v k'
      by_cases hak' : a = k'
      · have hkk' : ¬ k = k' := fun hh => hak (hh ▸ hak')
        have hk'k : ¬ k' = k := fun hh => hkk' hh.symm
        simp [setKey, dlookup, hak, hak', hkk', hk'k]
      · simp [setKey, dlookup, hak, hak', ih]

/-- Reading back a key after the data-copying fold: the last own entry for
the key wins, and absent that, the accumulator's binding shows through. -/
theorem dlookup_copyFold :
    ∀ (es : List DEntry) (m : List (String × String)) (k : String),
      dlookup (es.foldl (fun m e => if e.own then setKey m e.key e.val else m) m) k
        = Option.or (lastOwnVal es k) (dlookup m k)
  | [], m, k => by simp [lastOwnVal, List.find?]
  | e :: tl, m, k => by
    have ih := dlookup_copyFold tl
      ((fun m e => if e.own then setKey m e.key e.val else m) m e) k
    simp only [List.foldl_cons] at ih ⊢
    rw [ih]
    unfold lastOwnVal
    have hrev : (e :: tl).reverse = tl.reverse ++ [e] := by simp
    rw [hrev, List.find?_append]
    cases h1 : tl.reverse.find? (fun x => x.own && decide (x.key = k)) with
    | some x => simp [Option.or]
    | none =>
      by_cases how : e.own
      · by_cases hk : e.key = k
        · simp [how, hk, dlookup_setKey, List.find?, Option.or]
        · simp [how, hk, dlookup_setKey, List.find?, Option.or]
      · simp [how, List.find?, Option.or]

/-- The data namespace built by `fromCST`'s copy loop answers every key with
the value of the last own entry carrying that key. -/
theorem dlookup_copyData_table (es : List DEntry) (k : String) :
    dlookup (copyData (.table es)) k = lastOwnVal es k := by
  have h := dlookup_copyFold es [] k
  simpa [copyData, dlookup] using h

@[simp]
theorem callbackEvents_nil : callbackEvents [] = [] := rfl

@[simp]
theorem callbackEvents_cons_invoke (i : Nat) (tr : List Event) :
    callbackEvents (.invoke i :: tr) = callbackEvents tr := rfl

@[simp]
theorem callbackEvents_cons_nextCall (i : Nat) (tr : List Event) :
    callbackEvents (.nextCall i :: tr) = callbackEvents tr := rfl

@[simp]
theorem callbackEvents_cons_attachCall (i : Nat) (tr : List Event) :
    callbackEvents (.attachCall i :: tr) = callbackEvents tr := rfl

@[simp]
theorem callbackEvents_cons_callback (e : Option Nat) (n : Option TreeNode)
    (tr : List Event) :
    callbackEvents (.callback e n :: tr) = (e, n) :: callbackEvents tr := rfl

@[simp]
theorem invokeIdxs_nil : invokeIdxs [] = [] := rfl

@[simp]
theorem invokeIdxs_cons_invoke (i : Nat) (tr : List Event) :
    invokeIdxs (.invoke i :: tr) = i :: invokeIdxs tr := rfl

@[simp]
theorem invokeIdxs_cons_nextCall (i : Nat) (tr : List Event) :
    invokeIdxs (.nextCall i :: tr) = invokeIdxs tr := rfl

@[simp]
theorem invokeIdxs_cons_attachCall (i : Nat) (tr : List Event) :
    invokeIdxs (.attachCall i :: tr) = invokeIdxs tr := rfl

@[simp]
theorem invokeIdxs_cons_callback (e : Option Nat) (n : Option TreeNode)
    (tr : List Event) :
    invokeIdxs (.callback e n :: tr) = invokeIdxs tr := rfl

/-- The terminal callback fires at most once in every run, whatever the
plugins do. -/
theorem runWare_cb_le_one :
    ∀ (ps : List PluginBehavior) (node : TreeNode) (i : Nat),
      (callbackEvents (runWare ps node i)).length ≤ 1
  | [], node, i => by simp [runWare, callbackEvents]
  | p :: rest, node, i => by
    cases p with
    | syncOk =>
      simpa [runWare, callbackEvents] using runWare_cb_le_one rest node (i + 1)
    | syncThrow e => simp [runWare, callbackEvents]
    | asyncNext oe r =>
      cases oe with
      | none =>
        simpa [runWare, callbackEvents] using
          runWare_cb_le_one rest (r.getD node) (i + 1)
      | some e => simp [runWare, callbackEvents]
    | asyncNever => simp [runWare, callbackEvents]
    | throwAndNext e oe => simp [runWare, callbackEvents]

/-- After a prefix of successfully completing plugins, the first plugin that
signals an error short-circuits the run: the callback fires exactly once,
with that error and no node, and no plugin past the failing one begins. -/
theorem runWare_shortcircuit :
    ∀ (pre : List PluginBehavior) (p : PluginBehavior) (post : List PluginBehavior)
      (node : TreeNode) (i : Nat) (e : Nat),
      (∀ q ∈ pre, completesOk q = true) → signalsError p = some e →
      callbackEvents (runWare (pre ++ p :: post) node i) = [(some e, none)] ∧
      ∀ j ∈ invokeIdxs (runWare (pre ++ p :: post) node i), j < i + pre.length + 1
  | [], p, post, node, i, e, _, hp => by
    cases p with
    | syncOk => simp [signalsError] at hp
    | syncThrow e' =>
      have he : e' = e := by simpa [signalsError] using hp
      subst he
      simp [runWare]
    | asyncNext oe r =>
      cases oe with
      | none => simp [signalsError] at hp
      | some e' =>
        have he : e' = e := by simpa [signalsError] using hp
        subst he
        simp [runWare]
    | asyncNever => simp [signalsError] at hp
    | throwAndNext e' oe =>
      have he : e' = e := by simpa [signalsError] using hp
      subst he
      simp [runWare]
  | q :: pre', p, post, node, i, e, hpre, hp => by
    have hq : completesOk q = true := hpre q (List.mem_cons_self q pre')
    have hpre' : ∀ x ∈ pre', completesOk x = true :=
      fun x hx => hpre x (List.mem_cons_of_mem q hx)
    cases q with
    | syncOk =>
      have ih := runWare_shortcircuit pre' p post node (i + 1) e hpre' hp
      refine ⟨by simpa [runWare, callbackEvents] using ih.1, ?_⟩
      intro j hj
      simp [runWare] at hj
      rcases hj with hj | hj
      · omega
      · have := ih.2 j hj
        simp [List.length_cons]
        omega
    | asyncNext oe r =>
      cases oe with
      | none =>
        have ih := runWare_shortcircuit pre' p post (r.getD node) (i + 1) e hpre' hp
        refine ⟨by simpa [runWare, callbackEvents] using ih.1, ?_⟩
        intro j hj
        simp [runWare] at hj
        rcases hj with hj | hj
        · omega
        · have := ih.2 j hj
          simp [List.length_cons]
          omega
      | some e' => simp [completesOk] at hq
    | syncThrow e' => simp [completesOk] at hq
    | asyncNever => simp [completesOk] at hq
    | throwAndNext e' oe => simp [completesOk] at hq

/-- A run of plugins that all complete successfully produces exactly the
sequential trace: each plugin begins only after its predecessor returned or
was awaited through its continuation. -/
theorem runWare_eq_seqTrace :
    ∀ (ps : List PluginBehavior) (node : TreeNode) (i : Nat),
      (∀ q ∈ ps, completesOk q = true) → runWare ps node i = seqTrace ps node i
  | [], _, _, _ => rfl
  | q :: tl, node, i, h => by
    have hq : completesOk q = true := h q (List.mem_cons_self q tl)
    have htl : ∀ x ∈ tl, completesOk x = true :=
      fun x hx => h x (List.mem_cons_of_mem q hx)
    cases q with
    | syncOk =>
      simp [runWare, seqTrace, runWare_eq_seqTrace tl node (i + 1) htl]
    | asyncNext oe r =>
      cases oe with
      | none =>
        simp [runWare, seqTrace, runWare_eq_seqTrace tl (r.getD node) (i + 1) htl]
      | some e => simp [completesOk] at hq
    | syncThrow e => simp [completesOk] at hq
    | asyncNever => simp [completesOk] at hq
    | throwAndNext e oe => simp [completesOk] at hq

/-- The sequential trace begins the plugins at consecutive registry
positions, in registry order, each exactly once. -/
theorem seqTrace_invokeIdxs :
    ∀ (ps : List PluginBehavior) (node : TreeNode) (i : Nat),
      invokeIdxs (seqTrace ps node i) = List.range' i ps.length
  | [], node, i => by simp [seqTrace]
  | q :: tl, node, i => by
    cases q with
    | syncOk =>
      simp [seqTrace, seqTrace_invokeIdxs tl node (i + 1), List.range']
    | asyncNext oe r =>
      cases oe with
      | none =>
        simp [seqTrace, seqTrace_invokeIdxs tl (r.getD node) (i + 1),
          List.range']
      | some e =>
        simp [seqTrace, seqTrace_invokeIdxs tl node (i + 1), List.range']
    | syncThrow e =>
      simp [seqTrace, seqTrace_invokeIdxs tl node (i + 1), List.range']
    | asyncNever =>
      simp [seqTrace, seqTrace_invokeIdxs tl node (i + 1), List.range']
    | throwAndNext e oe =>
      simp [seqTrace, seqTrace_invokeIdxs tl node (i + 1), List.range']

/-- The sequential trace ends in exactly one callback, signalling success
with the node threaded through any replacements. -/
theorem seqTrace_callbackEvents :
    ∀ (ps : List PluginBehavior) (node : TreeNode) (i : Nat),
      callbackEvents (seqTrace ps node i) = [(none, some (finalNode ps node))]
  | [], node, i => by simp [seqTrace, finalNode]
  | q :: tl, node, i => by
    cases q with
    | syncOk =>
      simp [seqTrace, finalNode, seqTrace_callbackEvents tl node (i + 1)]
    | asyncNext oe r =>
      cases oe with
      | none =>
        cases r with
        | none =>
          simp [seqTrace, finalNode,
            seqTrace_callbackEvents tl node (i + 1)]
        | some rn =>
          simp [seqTrace, finalNode,
            seqTrace_callbackEvents tl rn (i + 1)]
      | some e =>
        simp [seqTrace, finalNode,
          seqTrace_callbackEvents tl node (i + 1)]
    | syncThrow e =>
      simp [seqTrace, finalNode, seqTrace_callbackEvents tl node (i + 1)]
    | asyncNever =>
      simp [seqTrace, finalNode, seqTrace_callbackEvents tl node (i + 1)]
    | throwAndNext e oe =>
      simp [seqTrace, finalNode, seqTrace_callbackEvents tl node (i + 1)]

/-- The runner never fires an attach hook: attach events can only come from
`use`, at attachment time. -/
theorem runWare_no_attach :
    ∀ (ps : List PluginBehavior) (node : TreeNode) (i : Nat),
      (runWare ps node i).all (fun ev => !ev.isAttach) = true
  | [], node, i => by simp [runWare, Event.isAttach]
  | p :: rest, node, i => by
    cases p with
    | syncOk =>
      simpa [runWare, Event.isAttach] using runWare_no_attach rest node (i + 1)
    | syncThrow e => simp [runWare, Event.isAttach]
    | asyncNext oe r =>
      cases oe with
      | none =>
        simpa [runWare, Event.isAttach] using
          runWare_no_attach rest (r.getD node) (i + 1)
      | some e => simp [runWare, Event.isAttach]
    | asyncNever => simp [runWare, Event.isAttach]
    | throwAndNext e oe => simp [runWare, Event.isAttach]

/-- A sample leaf CST: a WordNode with value Cat. -/
def wLeaf : CST := .mk ("WordNode") .absent (.str ("Cat")) .absent

/-- A sample one-entry children array holding `wLeaf`. -/
def wList : CList := .cons (.node wLeaf) .nil

/-- A sample object model registering two node types. -/
def wTextOM : List String := ["RootNode", "WordNode"]

/-- The tree node built from `wLeaf`. -/
def wLeafNode : TreeNode := .mk ("WordNode") [] (some ("Cat")) []

/-- The tree node built from a RootNode whose children array is `wList`. -/
def wRootNode : TreeNode := .mk ("RootNode") [wLeafNode] none []

/-- C1: for a well-formed CST node, when `children` is present the built
node's children are exactly the recursively built CST children in the
original order (and the node received no textual content); when the node is
a leaf the built node's textual content is exactly the CST `value` string
(and it has no children). -/
theorem fromCST_structural_roundtrip (TextOM : List String) (ty : String)
    (l : CList) (s : String) (d : CData) (n m : TreeNode)
    (hwf : wfList l = true)
    (h1 : fromCST TextOM (.mk ty (.present l) .absent d) = .ok n)
    (h2 : fromCST TextOM (.mk ty .absent (.str s) d) = .ok m) :
    buildAll TextOM (entries l) = .ok n.children ∧ n.value = none ∧
    m.value = some s ∧ m.children = [] := by
  by_cases hty : ty ∈ TextOM
  · simp only [fromCST, hty, if_true] at h1 h2
    cases hbl : buildList TextOM l with
    | error e => rw [hbl] at h1; cases h1
    | ok ns =>
      rw [hbl] at h1
      cases h1
      cases h2
      refine ⟨?_, rfl, rfl, rfl⟩
      rw [← buildList_eq_buildAll TextOM l hwf, hbl, TreeNode.children]
  · simp only [fromCST, hty, if_false] at h1
    cases h1

/-- The tree node built from a leaf RootNode CST with value Cat. -/
def wRootLeaf : TreeNode := .mk ("RootNode") [] (some ("Cat")) []

theorem fromCST_structural_roundtrip_witness :
    buildAll wTextOM (entries wList) = .ok wRootNode.children ∧ wRootNode.value = none ∧
    wRootLeaf.value = some ("Cat") ∧ wRootLeaf.children = [] :=
  fromCST_structural_roundtrip wTextOM ("RootNode") wList ("Cat") .absent
    wRootNode wRootLeaf rfl rfl rfl

/-- C2: a CST node whose type has no registered constructor makes `fromCST`
fail with the explicit unknown-node-type error; it never produces a node of
some default type. -/
theorem fromCST_unknown_type (TextOM : List String) (cst : CST)
    (h : cst.type ∉ TextOM) :
    fromCST TextOM cst = .error (.unknownNodeType cst.type) ∧
    (fromCST TextOM cst).isOk = false := by
  cases cst with
  | mk ty kids v d =>
    have hty : ty ∉ TextOM := by simpa [CST.type] using h
    have h1 : fromCST TextOM (CST.mk ty kids v d) = .error (.unknownNodeType ty) := by
      cases kids with
      | present l => simp [fromCST, hty]
      | absent => cases v <;> simp [fromCST, hty]
    simp [CST.type, h1, Except.isOk, Except.toBool]

theorem fromCST_unknown_type_witness :
    fromCST wTextOM (.mk ("SentenceNode") .absent (.str ("x")) .absent)
      = .error (.unknownNodeType (CST.type (.mk ("SentenceNode") .absent (.str ("x")) .absent))) ∧
    (fromCST wTextOM (.mk ("SentenceNode") .absent (.str ("x")) .absent)).isOk = false :=
  fromCST_unknown_type wTextOM (.mk ("SentenceNode") .absent (.str ("x")) .absent)
    (by decide)

/-- C3: when a plugin signals failure after a prefix of successfully
completing plugins, no later plugin begins, the callback fires exactly once
with that error and no node; and in every run, plugin misbehavior included,
the callback fires at most once. -/
theorem run_error_once (pre post ps' : List PluginBehavior) (p : PluginBehavior)
    (node n0 : TreeNode) (e : Nat)
    (hpre : pre.all completesOk = true) (hp : signalsError p = some e) :
    callbackEvents (runWare (pre ++ p :: post) node 0) = [(some e, none)] ∧
    (invokeIdxs (runWare (pre ++ p :: post) node 0)).all
      (fun j => decide (j < pre.length + 1)) = true ∧
    (callbackEvents (runWare ps' n0 0)).length ≤ 1 := by
  have hpre' : ∀ q ∈ pre, completesOk q = true := by
    simpa [List.all_eq_true] using hpre
  have h := runWare_shortcircuit pre p post node 0 e hpre' hp
  refine ⟨h.1, ?_, runWare_cb_le_one ps' n0 0⟩
  simp only [List.all_eq_true, decide_eq_true_eq]
  intro j hj
  have := h.2 j hj
  omega

theorem run_error_once_witness :
    callbackEvents (runWare ([.syncOk] ++ .syncThrow 7 :: [.syncOk]) wRootNode 0)
      = [(some 7, none)] ∧
    (invokeIdxs (runWare ([.syncOk] ++ .syncThrow 7 :: [.syncOk]) wRootNode 0)).all
      (fun j => decide (j < [PluginBehavior.syncOk].length + 1)) = true ∧
    (callbackEvents (runWare [.throwAndNext 3 (some 4)] wLeafNode 0)).length ≤ 1 :=
  run_error_once [.syncOk] [.syncOk] [.throwAndNext 3 (some 4)] (.syncThrow 7)
    wRootNode wLeafNode 7 rfl rfl

/-- C4: when every plugin completes successfully, the run is exactly the
sequential trace (each plugin begins only after its predecessor returned or
its continuation was awaited), every plugin is invoked once in registry
order, and the callback fires once with no error and the threaded node. -/
theorem run_sequential_order (ps : List PluginBehavior) (node : TreeNode)
    (h : ps.all completesOk = true) :
    runWare ps node 0 = seqTrace ps node 0 ∧
    invokeIdxs (runWare ps node 0) = List.range ps.length ∧
    callbackEvents (runWare ps node 0) = [(none, some (finalNode ps node))] := by
  have h' : ∀ q ∈ ps, completesOk q = true := by
    simpa [List.all_eq_true] using h
  have heq := runWare_eq_seqTrace ps node 0 h'
  refine ⟨heq, ?_, ?_⟩
  · rw [heq, seqTrace_invokeIdxs]
    exact (List.range_eq_range' ps.length).symm
  · rw [heq, seqTrace_callbackEvents]

theorem run_sequential_order_witness :
    runWare [.syncOk, .asyncNext none none, .syncOk] wRootNode 0
      = seqTrace [.syncOk, .asyncNext none none, .syncOk] wRootNode 0 ∧
    invokeIdxs (runWare [.syncOk, .asyncNext none none, .syncOk] wRootNode 0)
      = List.range [PluginBehavior.syncOk, .asyncNext none none, .syncOk].length ∧
    callbackEvents (runWare [.syncOk, .asyncNext none none, .syncOk] wRootNode 0)
      = [(none, some (finalNode [.syncOk, .asyncNext none none, .syncOk] wRootNode))] :=
  run_sequential_order [.syncOk, .asyncNext none none, .syncOk] wRootNode rfl

/-- C5: attaching a plugin whose identity is not yet in the registry appends
it, fires its attach hook synchronously exactly once (never when absent); a
second `use` with the same reference leaves the registry unchanged and fires
no attach hook; the registry then holds the plugin exactly once; and a run
never fires an attach hook. -/
theorem use_idempotent_attach_once (self : Retext) (p : Plugin)
    (bs : List PluginBehavior) (n : TreeNode) (i : Nat)
    (h : self.fns.any (fun q => q.id = p.id) = false) :
    (Retext.use self (.fn p)).1.fns = self.fns ++ [p] ∧
    (Retext.use self (.fn p)).2 =
      .ok (if p.hasAttach then [Event.attachCall p.id] else []) ∧
    Retext.use (Retext.use self (.fn p)).1 (.fn p) =
      ((Retext.use self (.fn p)).1, .ok []) ∧
    ((Retext.use self (.fn p)).1.fns.filter (fun q => q.id = p.id)).length = 1 ∧
    (runWare bs n i).all (fun ev => !ev.isAttach) = true := by
  have hmem : ∀ x ∈ self.fns, x.id ≠ p.id := by
    intro x hx hxe
    have htrue : self.fns.any (fun q => decide (q.id = p.id)) = true :=
      List.any_eq_true.mpr ⟨x, hx, by simp [hxe]⟩
    rw [htrue] at h
    cases h
  have hfil : self.fns.filter (fun q => decide (q.id = p.id)) = [] :=
    List.filter_eq_nil_iff.mpr (fun q hq => by simp [hmem q hq])
  refine ⟨?_, ?_, ?_, ?_, runWare_no_attach bs n i⟩
  · simp [Retext.use, usePlugin, h]
  · simp [Retext.use, usePlugin, h]
  · simp [Retext.use, usePlugin, h, List.any_append]
  · simp [Retext.use, usePlugin, h, List.filter_append, hfil]

/-- A sample processing instance with an empty registry. -/
def wInstance : Retext := ⟨[], wTextOM⟩

/-- A sample plugin with an attach hook. -/
def wPlugin : Plugin := ⟨5, true, .syncOk⟩

theorem use_idempotent_attach_once_witness :
    (Retext.use wInstance (.fn wPlugin)).1.fns = wInstance.fns ++ [wPlugin] ∧
    (Retext.use wInstance (.fn wPlugin)).2 =
      .ok (if wPlugin.hasAttach then [Event.attachCall wPlugin.id] else []) ∧
    Retext.use (Retext.use wInstance (.fn wPlugin)).1 (.fn wPlugin) =
      ((Retext.use wInstance (.fn wPlugin)).1, .ok []) ∧
    ((Retext.use wInstance (.fn wPlugin)).1.fns.filter
      (fun q => q.id = wPlugin.id)).length = 1 ∧
    (runWare [.syncOk] wRootNode 0).all (fun ev => !ev.isAttach) = true :=
  use_idempotent_attach_once wInstance wPlugin [.syncOk] wRootNode 0 rfl

/-- C6: `use` with a non-callable argument raises the invalid-plugin type
error synchronously, leaving the registry untouched; `parse` and `run` with
a non-callable callback raise the invalid-callback type error synchronously,
whatever the parser, the input, the registry and the node are, so no
parsing, tree construction or plugin execution can have occurred. -/
theorem guards_synchronous (self : Retext) (parser : String → Except Nat CST)
    (value : String) (node : TreeNode) :
    Retext.use self .nonFn = (self, .error .invalidPlugin) ∧
    Retext.parse self parser value .notFn = .error .invalidCallback ∧
    Retext.run self node .notFn = .error .invalidCallback :=
  ⟨rfl, rfl, rfl⟩

/-- C7: when the external parser throws on the given text, `parse`
propagates that failure synchronously to its caller and never reaches the
callback channel with a result. -/
theorem parse_parser_throw_propagates (self : Retext)
    (parser : String → Except Nat CST) (value : String) (e : Nat)
    (h : parser value = .error e) :
    Retext.parse self parser value .valid = .error (.parserThrew e) ∧
    (Retext.parse self parser value .valid).isOk = false := by
  refine ⟨?_, ?_⟩ <;> simp [Retext.parse, h, Except.isOk, Except.toBool]

theorem parse_parser_throw_propagates_witness :
    Retext.parse wInstance (fun _ => .error 3) ("Cat.") .valid
      = .error (.parserThrew 3) ∧
    (Retext.parse wInstance (fun _ => .error 3) ("Cat.") .valid).isOk = false :=
  parse_parser_throw_propagates wInstance (fun _ => .error 3) ("Cat.") 3 rfl

/-- C8: when the CST node carries a `data` mapping, every key of the built
node's data namespace answers with the value of the last own entry for that
key (so own keys are all copied, inherited keys never are, and collisions
resolve last-write-wins); without `data` the node's namespace stays empty. -/
theorem fromCST_data_shallow_copy (TextOM : List String) (ty : String)
    (kids : CKids) (v : CVal) (es : List DEntry) (key : String) (n m : TreeNode)
    (h1 : fromCST TextOM (.mk ty kids v (.table es)) = .ok n)
    (h2 : fromCST TextOM (.mk ty kids v .absent) = .ok m) :
    dlookup n.data key = lastOwnVal es key ∧ m.data = [] := by
  by_cases hty : ty ∈ TextOM
  · cases kids with
    | present l =>
      cases hbl : buildList TextOM l with
      | error e =>
        simp only [fromCST, hty, if_true, hbl] at h1
        cases h1
      | ok ns =>
        simp only [fromCST, hty, if_true, hbl] at h1 h2
        cases h1
        cases h2
        refine ⟨?_, by simp [TreeNode.data, copyData]⟩
        simpa [TreeNode.data] using dlookup_copyData_table es key
    | absent =>
      cases v with
      | str s =>
        simp only [fromCST, hty, if_true] at h1 h2
        cases h1
        cases h2
        refine ⟨?_, by simp [TreeNode.data, copyData]⟩
        simpa [TreeNode.data] using dlookup_copyData_table es key
      | absent =>
        simp only [fromCST, hty, if_true] at h1 h2
        cases h1
        cases h2
        refine ⟨?_, by simp [TreeNode.data, copyData]⟩
        simpa [TreeNode.data] using dlookup_copyData_table es key
  · cases kids with
    | present l => simp [fromCST, hty] at h1
    | absent => cases v <;> simp [fromCST, hty] at h1

/-- A sample data mapping: two own entries colliding on one key, plus an
inherited entry. -/
def wData : List DEntry := [⟨("a"), ("1"), true⟩, ⟨("a"), ("2"), true⟩, ⟨("b"), ("3"), false⟩]

/-- The node built from a leaf RootNode carrying `wData`. -/
def wDataNode : TreeNode := .mk ("RootNode") [] (some ("x")) [(("a"), ("2"))]

/-- The node built from the same leaf RootNode without `data`. -/
def wPlainNode : TreeNode := .mk ("RootNode") [] (some ("x")) []

theorem fromCST_data_shallow_copy_witness :
    dlookup wDataNode.data ("a") = lastOwnVal wData ("a") ∧ wPlainNode.data = [] :=
  fromCST_data_shallow_copy wTextOM ("RootNode") .absent (.str ("x")) wData ("a")
    wDataNode wPlainNode rfl rfl

/-- C9: the child loop stops at the first falsy entry of a `children` array,
silently dropping it and all later siblings instead of failing; reaching the
end of an array without falsy entries stops the loop by the same truthiness
test, with the same result. -/
theorem fromCST_stops_at_falsy (TextOM : List String) (ty : String)
    (pre : List CST) (post : List CEntry) (v : CVal) (d : CData)
    (ns : List TreeNode)
    (hty : ty ∈ TextOM) (hpre : buildAll TextOM pre = .ok ns) :
    fromCST TextOM
        (.mk ty (.present (clist (pre.map CEntry.node ++ CEntry.null :: post))) v d)
      = .ok (.mk ty ns none (copyData d)) ∧
    fromCST TextOM (.mk ty (.present (clist (pre.map CEntry.node))) v d)
      = .ok (.mk ty ns none (copyData d)) := by
  have hrest1 : buildList TextOM (clist (CEntry.null :: post)) = .ok [] := by
    simp [clist, buildList]
  have hrest2 : buildList TextOM (clist []) = .ok [] := by simp [clist, buildList]
  have hs1 := buildList_clist_split TextOM pre (CEntry.null :: post) ns hpre hrest1
  have hs2 := buildList_clist_split TextOM pre [] ns hpre hrest2
  rw [List.append_nil] at hs2
  exact ⟨by simp [fromCST, hty, hs1], by simp [fromCST, hty, hs2]⟩

theorem fromCST_stops_at_falsy_witness :
    fromCST wTextOM
        (.mk ("RootNode")
          (.present (clist ([wLeaf].map CEntry.node ++ CEntry.null :: [CEntry.node wLeaf])))
          .absent .absent)
      = .ok (.mk ("RootNode") [wLeafNode] none (copyData .absent)) ∧
    fromCST wTextOM (.mk ("RootNode") (.present (clist ([wLeaf].map CEntry.node))) .absent .absent)
      = .ok (.mk ("RootNode") [wLeafNode] none (copyData .absent)) :=
  fromCST_stops_at_falsy wTextOM ("RootNode") [wLeaf] [CEntry.node wLeaf] .absent .absent
    [wLeafNode] (by decide) rfl

/-- C10: a malformed CST node carrying both `children` and `value` is built
through the children branch with no error signalled, its `value` ignored
entirely (the result does not depend on it and `fromString` is not invoked);
`fromString` runs only when the `children` key is absent. -/
theorem fromCST_children_wins (TextOM : List String) (ty : String) (l : CList)
    (s : String) (d : CData) (ns : List TreeNode)
    (hty : ty ∈ TextOM) (hl : buildList TextOM l = .ok ns) :
    fromCST TextOM (.mk ty (.present l) (.str s) d)
      = .ok (.mk ty ns none (copyData d)) ∧
    fromCST TextOM (.mk ty (.present l) (.str s) d)
      = fromCST TextOM (.mk ty (.present l) .absent d) ∧
    fromCST TextOM (.mk ty .absent (.str s) d)
      = .ok (.mk ty [] (some s) (copyData d)) := by
  refine ⟨?_, ?_, ?_⟩
  · simp [fromCST, hty, hl]
  · simp [fromCST, hty, hl]
  · simp [fromCST, hty, valOf]

theorem fromCST_children_wins_witness :
    fromCST wTextOM (.mk ("RootNode") (.present wList) (.str ("Dog")) .absent)
      = .ok (.mk ("RootNode") [wLeafNode] none (copyData .absent)) ∧
    fromCST wTextOM (.mk ("RootNode") (.present wList) (.str ("Dog")) .absent)
      = fromCST wTextOM (.mk ("RootNode") (.present wList) .absent .absent) ∧
    fromCST wTextOM (.mk ("RootNode") .absent (.str ("Dog")) .absent)
      = .ok (.mk ("RootNode") [] (some ("Dog")) (copyData .absent)) :=
  fromCST_children_wins wTextOM ("RootNode") wList ("Dog") .absent [wLeafNode]
    (by decide) rfl

end Retext2Proof
